import Mathlib

/-!
Shallow embedding of `scanpy.tools._louvain.louvain` (file
`src/scanpy/tools/_louvain.py`) and verification of the specification
claims about it.

The wrapper's own logic — parameter validation, adjacency resolution,
sample restriction, flavor dispatch, and writing the categorical result
column — is embedded faithfully.  The external community-detection
backends (`louvain.find_partition`, `igraph`'s `community_multilevel`,
`community.best_partition`) are modelled as an oracle record `Backend`
supplying the membership data the wrapper consumes, since the spec
places the partitioning algorithms themselves out of scope.
-/

namespace Scanpy

/-- A Python value appearing in a `restrict_to` category list: the code only
distinguishes strings (`isinstance(restrict_categories[0], str)`) from
non-string values such as ints. -/
inductive PyVal where
  | str (s : String)
  | int (n : Int)
deriving DecidableEq, Repr

/-- `isinstance(c, str)`. -/
def PyVal.isStr : PyVal → Bool
  | .str _ => true
  | .int _ => false

/-- The string carried by a `PyVal` known to be a string (non-string values
never reach the joining step because category validation rejects them). -/
def PyVal.toStr : PyVal → String
  | .str s => s
  | .int n => toString n

/-- A pandas categorical column: per-sample string values together with the
declared category list (`.cat.categories`). -/
structure Column where
  values : List String
  categories : List String
deriving DecidableEq, Repr

/-- `adata.obs`, a key-indexed table of categorical columns. -/
abbrev Obs := List (String × Column)

/-- Read `adata.obs[k]`; `none` models a `KeyError`. -/
def obsGet (o : Obs) (k : String) : Option Column :=
  (o.find? (fun p => p.1 = k)).map (fun p => p.2)

/-- Write `adata.obs[k] = c`, replacing an existing column or appending. -/
def obsSet (o : Obs) (k : String) (c : Column) : Obs :=
  match o with
  | [] => [(k, c)]
  | (k', c') :: rest => if k' = k then (k, c) :: rest else (k', c') :: obsSet rest k c

/-- A sparse adjacency matrix, modelled densely as a list of rows. -/
abbrev Adj := List (List Rat)

/-- `adjacency[restrict_indices, :]` — keep the rows selected by the mask. -/
def sliceRows (mask : List Bool) (m : Adj) : Adj :=
  (mask.zip m).filterMap (fun p => if p.1 then some p.2 else none)

/-- `adjacency[:, restrict_indices]` — keep the columns selected by the mask. -/
def sliceCols (mask : List Bool) (m : Adj) : Adj :=
  m.map (fun row => (mask.zip row).filterMap (fun p => if p.1 then some p.2 else none))

/-- Lines 109–110: slice both dimensions of the adjacency by the mask. -/
def sliceAdj (mask : List Bool) (m : Adj) : Adj :=
  sliceCols mask (sliceRows mask m)

/-- The record stored as `adata.uns['louvain']['params']`. -/
structure LParams where
  resolution : Option Rat
  random_state : Int
deriving DecidableEq, Repr

/-- The annotated-data container: the `obs` table plus the two `uns` entries
the wrapper touches (`uns['neighbors']['connectivities']` and
`uns['louvain']`). -/
structure AnnData where
  obs : Obs
  unsNeighbors : Option Adj
  unsLouvainParams : Option LParams
deriving DecidableEq, Repr

/-- Partition classes passed as `partition_type`; the wrapper only tests the
argument for `None` and otherwise hands it to the backend, defaulting to
`louvain.RBConfigurationVertexPartition`. -/
inductive PartType where
  | RBConfigurationVertexPartition
  | otherPartition (n : Nat)
deriving DecidableEq, Repr

/-- The exceptions the wrapper can raise, one constructor per `raise` site
(plus the container's own `KeyError`/`IndexError`/length errors). -/
inductive Err where
  /-- Line 90: `partition_type` with a flavor other than `'vtraag'`. -/
  | partitionValueError
  /-- Line 94: no explicit adjacency and no `'neighbors'` in `adata.uns`. -/
  | neighborsValueError
  /-- Line 101: `restrict_categories[0]` is not a string. -/
  | nonStringValueError
  /-- Line 105: a restriction category absent from the column's categories. -/
  | badCategoryValueError (c : PyVal) (k : String)
  /-- Line 151: unrecognized flavor. -/
  | flavorValueError
  /-- pandas `ValueError` from `iloc[mask] = list` with mismatched length. -/
  | assignLengthValueError
  /-- `KeyError` from `adata.obs[k]` with a missing key. -/
  | keyError (k : String)
  /-- `IndexError` (e.g. `restrict_categories[0]` on an empty sequence, or
  an out-of-range store in the `'taynaud'` densification loop). -/
  | indexError
deriving DecidableEq, Repr

/-- Which of the modelled exceptions are Python `ValueError`s. -/
def Err.isValueError : Err → Bool
  | .keyError _ => false
  | .indexError => false
  | _ => true

/-! ### Natural sort (`natsorted`)

`natsort.natsorted` splits each string into alternating runs of non-digit
characters and runs of digits, compares digit runs by their numeric value
and other runs by code points, and sorts stably by that key. -/

/-- One key chunk: a text run (as character code points) or a digit run's
numeric value. -/
abbrev Chunk := List Nat ⊕ Nat

/-- Three-way comparison on `Nat`. -/
def cmpNat (m n : Nat) : Ordering :=
  if m < n then .lt else if n < m then .gt else .eq

/-- Lexicographic comparison of lists given an element comparison. -/
def lexCmp (c : α → α → Ordering) : List α → List α → Ordering
  | [], [] => .eq
  | [], _ :: _ => .lt
  | _ :: _, [] => .gt
  | a :: as, b :: bs =>
    match c a b with
    | .eq => lexCmp c as bs
    | o => o

/-- Comparison of key chunks.  Between the keys of two strings a text run is
never compared with a digit run at the same position unless one of the two
text runs is empty, which `natsort` realises by letting a digit run compare
below any non-empty text run; the cross cases here fix that orientation. -/
def chunkCmp : Chunk → Chunk → Ordering
  | .inl a, .inl b => lexCmp cmpNat a b
  | .inr m, .inr n => cmpNat m n
  | .inr _, .inl _ => .lt
  | .inl _, .inr _ => .gt

/-- Numeric value of a run of decimal digit characters. -/
def digitsVal (ds : List Char) : Nat :=
  ds.foldl (fun acc c => 10 * acc + (c.toNat - 48)) 0

/-- Split a character list into the alternating `natsort` key chunks.  The
fuel only bounds the recursion depth: each step consumes at least one
character, so any fuel of at least the list's length yields the full key. -/
def natKeyAux : Nat → List Char → List Chunk
  | 0, _ => []
  | _ + 1, [] => []
  | fuel + 1, c :: cs =>
    if c.isDigit then
      .inr (digitsVal (c :: cs.takeWhile Char.isDigit)) ::
        natKeyAux fuel (cs.dropWhile Char.isDigit)
    else
      .inl ((c :: cs.takeWhile (fun d => !d.isDigit)).map Char.toNat) ::
        natKeyAux fuel (cs.dropWhile (fun d => !d.isDigit))

/-- The `natsort` key of a string's characters. -/
def natKey (l : List Char) : List Chunk :=
  natKeyAux l.length l

/-- The `natsort` three-way comparison on strings. -/
def natCmp (s t : String) : Ordering :=
  lexCmp chunkCmp (natKey s.data) (natKey t.data)

/-- The (total, transitive) order realised by `natsorted`. -/
def NatLe (s t : String) : Prop := natCmp s t ≠ .gt

instance : DecidableRel NatLe := fun s t =>
  inferInstanceAs (Decidable (natCmp s t ≠ .gt))

/-- `natsorted`: stable sort by the natural-sort key. -/
def natsorted (l : List String) : List String :=
  List.insertionSort NatLe l

/-- A lawful comparison: swap-symmetric and transitive on `≠ .gt`. -/
structure LawCmp (c : α → α → Ordering) : Prop where
  symm : ∀ a b, c a b = (c b a).swap
  le_trans : ∀ {a b d}, c a b ≠ .gt → c b d ≠ .gt → c a d ≠ .gt


/-! ### Remaining primitives used by the wrapper -/

/-- Big-endian decimal digits of a positive number, by fuel-bounded
structural recursion (any `fuel ≥ n` yields all digits). -/
def natStrAux : Nat → Nat → List Char
  | 0, _ => []
  | _ + 1, 0 => []
  | fuel + 1, n => natStrAux fuel (n / 10) ++ [Nat.digitChar (n % 10)]

/-- Python's decimal rendering of a non-negative integer (`str(i)`, also the
numpy `'U'` cast applied to the membership vector). -/
def natStr (n : Nat) : String :=
  if n = 0 then "0" else String.mk (natStrAux n n)

/-- Distinct elements in order of first appearance, by fuel-bounded
structural recursion; each step consumes at least one element, so any fuel
of at least the list's length is enough. -/
def uniquedAux {α : Type} [DecidableEq α] : Nat → List α → List α
  | 0, _ => []
  | _ + 1, [] => []
  | fuel + 1, a :: l => a :: uniquedAux fuel (l.filter (fun b => b ≠ a))

/-- Distinct elements in order of first appearance (pandas
`Series.unique`, and the distinct membership ids of a partition). -/
def uniqued {α : Type} [DecidableEq α] (l : List α) : List α :=
  uniquedAux l.length l

/-- `np.unique(groups)`: the distinct membership ids in ascending order. -/
def npUnique (l : List Nat) : List Nat :=
  List.insertionSort (· ≤ ·) (uniqued l)

/-- Number of `true` entries of a boolean mask. -/
def countTrue (mask : List Bool) : Nat :=
  (mask.filter (fun b => b)).length

/-- `all_groups.iloc[restrict_indices] = new_groups`: positions where the
mask holds take the next replacement value, other positions keep their old
value.  Callers establish `news.length = countTrue mask` first, matching the
pandas length check. -/
def maskedAssign : List Bool → List String → List String → List String
  | true :: ms, _ :: os, news => news.headD "" :: maskedAssign ms os news.tail
  | false :: ms, o :: os, news => o :: maskedAssign ms os news
  | _, _, _ => []

/-- Lines 148–149: densify the `community.best_partition` node→community
mapping into a vector indexed `0 .. len(partition) - 1`
(`groups = np.zeros(len(partition)); groups[k] = v`); a key outside that
range is an out-of-range numpy store. -/
def densify (partition : List (Nat × Nat)) : Option (List Nat) :=
  partition.foldl
    (fun acc kv => acc.bind (fun g =>
      if kv.1 < partition.length then some (g.set kv.1 kv.2) else none))
    (some (List.replicate partition.length 0))

/-- The external community-detection backends, as oracles returning the
membership vector the wrapper consumes.

* `vtraag` models `get_igraph_from_adjacency(adjacency, directed)` followed
  by `louvain.set_rng_seed(random_state)` and `louvain.find_partition(g,
  partition_type, **partition_kwargs)`, with the resolution and the weight
  usage that the wrapper inserts into `partition_kwargs` passed explicitly;
* `igraph` models the same graph construction (always undirected here)
  followed by `g.community_multilevel(weights=weights)`;
* `taynaud` models `community.best_partition(nx.Graph(adjacency))`,
  returning the node→community pairs that the wrapper densifies itself. -/
structure Backend where
  vtraag : Adj → Bool → PartType → Option Rat → Bool → Int → List Nat
  igraph : Adj → Bool → List Nat
  taynaud : Adj → List (Nat × Nat)

/-- The arguments of `louvain` other than `adata` itself (defaults as in the
Python signature; `partition_kwargs` beyond the keys the wrapper itself
inserts is part of the opaque backend call). -/
structure LArgs where
  resolution : Option Rat := none
  random_state : Int := 0
  restrict_to : Option (String × List PyVal) := none
  key_added : Option String := none
  adjacency : Option Adj := none
  flavor : String := "vtraag"
  directed : Bool := true
  use_weights : Bool := false
  partition_type : Option PartType := none
  copy : Bool := false
deriving DecidableEq, Repr

/-- Lines 93–97: resolve the adjacency source. -/
def resolveAdjacency (a : LArgs) (st : AnnData) : Except Err Adj :=
  match a.adjacency with
  | some m => .ok m
  | none =>
    match st.unsNeighbors with
    | some m => .ok m
    | none => .error .neighborsValueError

/-- Data extracted by a successful restriction check. -/
structure RestrictInfo where
  rkey : String
  cats : List PyVal
  mask : List Bool
deriving DecidableEq, Repr

/-- The membership test of line 104: a candidate restriction category fails
when it is not one of the column's categories (a non-string value is never
equal to a string category, so it always fails). -/
def isBadCat (existing : List String) : PyVal → Bool
  | .str s => !(existing.contains s)
  | .int _ => true

/-- First restriction category failing the membership test of line 104. -/
def firstBadCategory (cats : List PyVal) (existing : List String) : Option PyVal :=
  cats.find? (isBadCat existing)

/-- Lines 98–108: validate `restrict_to` and compute `restrict_indices`.
`restrict_categories[0]` on an empty sequence is an `IndexError`; a
non-string first element and an unknown category are `ValueError`s. -/
def checkRestrict (a : LArgs) (st : AnnData) : Except Err (Option RestrictInfo) :=
  match a.restrict_to with
  | none => .ok none
  | some (k, cats) =>
    match cats with
    | [] => .error .indexError
    | c0 :: _ =>
      if !c0.isStr then .error .nonStringValueError
      else
        match obsGet st.obs k with
        | none => .error (.keyError k)
        | some col =>
          match firstBadCategory cats col.categories with
          | some c => .error (.badCategoryValueError c k)
          | none =>
            .ok (some ⟨k, cats,
              col.values.map (fun v => cats.contains (.str v))⟩)

/-- Result of the flavor dispatch: the membership vector and whether the
`'igraph'`-with-resolution warning was surfaced. -/
structure GroupsOut where
  groups : List Nat
  warned : Bool
deriving DecidableEq, Repr

/-- Lines 111–151: flavor dispatch.  For `'vtraag'`/`'igraph'` the graph is
built from the (possibly sliced) adjacency — `directed` forced to `False`
for `'igraph'` — and the respective backend returns the membership; a
non-`None` resolution with `'igraph'` only logs a warning.  `'taynaud'`
densifies the backend's partition mapping.  Anything else is a
`ValueError`. -/
def computeGroups (a : LArgs) (B : Backend) (adj : Adj) : Except Err GroupsOut :=
  if a.flavor = "vtraag" ∨ a.flavor = "igraph" then
    let warned : Bool := a.flavor == "igraph" && a.resolution.isSome
    let eff_directed : Bool := if a.directed && a.flavor == "igraph" then false else a.directed
    if a.flavor = "vtraag" then
      let ptype := a.partition_type.getD .RBConfigurationVertexPartition
      .ok ⟨B.vtraag adj eff_directed ptype a.resolution a.use_weights a.random_state, warned⟩
    else
      .ok ⟨B.igraph adj a.use_weights, warned⟩
  else if a.flavor = "taynaud" then
    match densify (B.taynaud adj) with
    | some gs => .ok ⟨gs, false⟩
    | none => .error .indexError
  else
    .error .flavorValueError

/-- The output key: line 156 (`'louvain'`) or line 161 (`restrict_key + '_R'`). -/
def outKey (a : LArgs) : String :=
  match a.restrict_to with
  | none => a.key_added.getD "louvain"
  | some (k, _) => a.key_added.getD (k ++ "_R")

/-- Lines 152–159: the column written when no restriction is active: the
string-cast membership as values, the natsorted distinct ids as categories. -/
def noRestrictCol (groups : List Nat) : Column :=
  ⟨groups.map natStr, natsorted ((npUnique groups).map natStr)⟩

/-- Line 163: `'-'.join(restrict_categories) + ','` (the categories in the
order given, not sorted). -/
def catJoin (cats : List PyVal) : String :=
  String.intercalate "-" (cats.map PyVal.toStr) ++ ","

/-- Line 164: the labels of the restricted samples. -/
def newLabels (cats : List PyVal) (groups : List Nat) : List String :=
  groups.map (fun g => catJoin cats ++ natStr g)

/-- Line 165: merge the new labels into the restriction column's values. -/
def mergedValues (ri : RestrictInfo) (col : Column) (groups : List Nat) : List String :=
  maskedAssign ri.mask col.values (newLabels ri.cats groups)

/-- Lines 160–168: the column written when a restriction is active. -/
def restrictCol (ri : RestrictInfo) (col : Column) (groups : List Nat) : Column :=
  ⟨mergedValues ri col groups, natsorted (uniqued (mergedValues ri col groups))⟩

/-- Lines 152–168: write the categorical result column (the pandas masked
assignment of line 165 requires the replacement list's length to equal the
number of selected positions). -/
def writeOutput (a : LArgs) (st : AnnData) (r : Option RestrictInfo)
    (groups : List Nat) : Except Err AnnData :=
  match r with
  | none => .ok { st with obs := obsSet st.obs (outKey a) (noRestrictCol groups) }
  | some ri =>
    match obsGet st.obs ri.rkey with
    | none => .error (.keyError ri.rkey)
    | some col =>
      if (newLabels ri.cats groups).length = countTrue ri.mask then
        .ok { st with obs := obsSet st.obs (outKey a) (restrictCol ri col groups) }
      else .error .assignLengthValueError

/-- The adjacency actually partitioned: lines 108–110 slice it to the
restricted rows and columns when a restriction is active. -/
def effAdj (r : Option RestrictInfo) (adj : Adj) : Adj :=
  match r with
  | some ri => sliceAdj ri.mask adj
  | none => adj

/-- The observable outcome of a call: the container after the call, the
exception (if any), whether the `'igraph'` resolution warning was surfaced,
and the value returned (`adata` when `copy=True`, else `None`). -/
structure LouvainOut where
  adata : AnnData
  error : Option Err
  warned : Bool
  ret : Option AnnData
deriving DecidableEq, Repr

/-- The `louvain` wrapper, stage by stage in source order.  A raise leaves
the container as it was (`adata.copy()` for `copy=True` is the identity in
this pure model; the mutated-or-returned container is `.adata`). -/
def louvain (a : LArgs) (B : Backend) (adata0 : AnnData) : LouvainOut :=
  if a.flavor ≠ "vtraag" ∧ a.partition_type.isSome then
    ⟨adata0, some .partitionValueError, false, none⟩
  else
    match resolveAdjacency a adata0 with
    | .error e => ⟨adata0, some e, false, none⟩
    | .ok adj0 =>
      match checkRestrict a adata0 with
      | .error e => ⟨adata0, some e, false, none⟩
      | .ok r =>
        match computeGroups a B (effAdj r adj0) with
        | .error e => ⟨adata0, some e, false, none⟩
        | .ok go =>
          match writeOutput a adata0 r go.groups with
          | .error e => ⟨adata0, some e, go.warned, none⟩
          | .ok st1 =>
            let st2 : AnnData :=
              { st1 with unsLouvainParams := some ⟨a.resolution, a.random_state⟩ }
            ⟨st2, none, go.warned, if a.copy then some st2 else none⟩

/-! ### Concrete inputs for witnesses and counterexamples -/

deriving instance DecidableEq for Except

/-- A small symmetric adjacency. -/
def exAdj : Adj := [[0, 1], [1, 0]]

/-- Two categorical sample annotations over two samples: `"cat"` (categories
`"A"`, `"C"`) and `"out"` (a pre-existing output column), plus `"ab"` with
categories `"A"`, `"B"`. -/
def exObs : Obs :=
  [("cat", ⟨["A", "C"], ["A", "C"]⟩),
   ("out", ⟨["x", "y"], ["x", "y"]⟩),
   ("ab", ⟨["A", "B"], ["A", "B"]⟩)]

/-- A container with a precomputed neighbors entry. -/
def exSt : AnnData := ⟨exObs, some exAdj, none⟩

/-- A backend whose partitions have two communities. -/
def exB : Backend :=
  ⟨fun _ _ _ _ _ _ => [0, 1], fun _ _ => [0, 1], fun _ => []⟩

/-- A backend whose partitions have a single community `0`. -/
def exB1 : Backend :=
  ⟨fun _ _ _ _ _ _ => [0], fun _ _ => [0], fun _ => []⟩

/-- A backend producing the membership ids `10` and `2`. -/
def exB7 : Backend :=
  ⟨fun _ _ _ _ _ _ => [10, 2], fun _ _ => [10, 2], fun _ => []⟩

/-- The arguments of the restricted single-category scenario. -/
def exA6 : LArgs := { restrict_to := some ("cat", [.str "A"]) }

/-- The arguments of the restricted scenario that names an existing column
as the output key. -/
def exA1 : LArgs := { restrict_to := some ("cat", [.str "A"]), key_added := some "out" }

/-- The arguments restricting to both categories of `"ab"`, listed in the
non-sorted order `["B", "A"]`. -/
def exA2 : LArgs := { restrict_to := some ("ab", [.str "B", .str "A"]) }


/-! ### `natCmp` is a total, transitive comparison -/

theorem LawCmp.eq_symm {c : α → α → Ordering} (h : LawCmp c) {a b : α}
    (hab : c a b = .eq) : c b a = .eq := by
  have := h.symm a b
  rw [hab] at this
  cases hba : c b a <;> rw [hba] at this <;> simp [Ordering.swap] at this <;> rfl

theorem LawCmp.congr_left {c : α → α → Ordering} (h : LawCmp c) {a b : α}
    (hab : c a b = .eq) (x : α) : c a x = c b x := by
  have hba : c b a = .eq := h.eq_symm hab
  have hab' : c a b ≠ .gt := by rw [hab]; intro hc; cases hc
  have hba' : c b a ≠ .gt := by rw [hba]; intro hc; cases hc
  cases hax : c a x with
  | lt =>
    have hbx : c b x ≠ .gt := h.le_trans hba' (by rw [hax]; intro hc; cases hc)
    cases hbx' : c b x with
    | lt => rfl
    | eq =>
      exfalso
      have hxb : c x b = .eq := h.eq_symm hbx'
      have hxa : c x a ≠ .gt :=
        h.le_trans (by rw [hxb]; intro hc; cases hc) hba'
      have : c x a = .gt := by
        have := h.symm x a
        rw [hax] at this
        exact this
      exact hxa this
    | gt => exact absurd hbx' hbx
  | eq =>
    have hbx : c b x ≠ .gt := h.le_trans hba' (by rw [hax]; intro hc; cases hc)
    have hxa : c x a = .eq := h.eq_symm hax
    have hxb : c x b ≠ .gt :=
      h.le_trans (by rw [hxa]; intro hc; cases hc) hab'
    have hswap := h.symm b x
    cases hxb' : c x b with
    | lt => rw [hxb'] at hswap; exact absurd hswap hbx
    | eq => rw [hxb'] at hswap; rw [hswap]; exact rfl
    | gt => exact absurd hxb' hxb
  | gt =>
    cases hbx' : c b x with
    | gt => rfl
    | lt =>
      refine absurd hax (h.le_trans hab' ?_)
      rw [hbx']
      exact fun hc => Ordering.noConfusion hc
    | eq =>
      refine absurd hax (h.le_trans hab' ?_)
      rw [hbx']
      exact fun hc => Ordering.noConfusion hc

theorem LawCmp.congr_right {c : α → α → Ordering} (h : LawCmp c) {a b : α}
    (hab : c a b = .eq) (x : α) : c x a = c x b := by
  have h1 := h.symm x a
  have h2 := h.symm x b
  rw [h1, h2, h.congr_left hab x]

theorem lexCmp_symm {c : α → α → Ordering} (hs : ∀ a b, c a b = (c b a).swap) :
    ∀ l₁ l₂ : List α, lexCmp c l₁ l₂ = (lexCmp c l₂ l₁).swap
  | [], [] => rfl
  | [], _ :: _ => rfl
  | _ :: _, [] => rfl
  | a :: as, b :: bs => by
    simp only [lexCmp]
    rw [hs a b]
    cases c b a <;> simp [Ordering.swap] <;> exact lexCmp_symm hs as bs

theorem lexCmp_le_trans {c : α → α → Ordering} (h : LawCmp c) :
    ∀ {l₁ l₂ l₃ : List α}, lexCmp c l₁ l₂ ≠ .gt → lexCmp c l₂ l₃ ≠ .gt →
      lexCmp c l₁ l₃ ≠ .gt
  | [], l₂, [], _, _ => by intro hc; cases hc
  | [], l₂, _ :: _, _, _ => by intro hc; cases hc
  | a :: as, [], l₃, h12, _ => by exact absurd rfl h12
  | a :: as, b :: bs, [], _, h23 => by exact absurd rfl h23
  | a :: as, b :: bs, d :: ds, h12, h23 => by
    cases hab : c a b with
    | gt =>
      simp only [lexCmp, hab] at h12
      exact absurd rfl h12
    | eq =>
      simp only [lexCmp, hab] at h12
      have had : c a d = c b d := h.congr_left hab d
      cases hbd : c b d with
      | eq =>
        simp only [lexCmp, hbd] at h23
        rw [hbd] at had
        simp only [lexCmp, had]
        exact lexCmp_le_trans h h12 h23
      | lt =>
        rw [hbd] at had
        simp only [lexCmp, had]
        exact fun hc => Ordering.noConfusion hc
      | gt =>
        simp only [lexCmp, hbd] at h23
        exact absurd rfl h23
    | lt =>
      cases hbd : c b d with
      | eq =>
        have had : c a d = c a b := (h.congr_right hbd a).symm
        rw [hab] at had
        simp only [lexCmp, had]
        exact fun hc => Ordering.noConfusion hc
      | lt =>
        have hab' : c a b ≠ .gt := by
          rw [hab]; exact fun hc => Ordering.noConfusion hc
        have hbd' : c b d ≠ .gt := by
          rw [hbd]; exact fun hc => Ordering.noConfusion hc
        have hadne : c a d ≠ .gt := h.le_trans hab' hbd'
        cases had : c a d with
        | lt =>
          simp only [lexCmp, had]
          exact fun hc => Ordering.noConfusion hc
        | gt => exact absurd had hadne
        | eq =>
          exfalso
          have hcon : c a b = c d b := h.congr_left had b
          rw [hab, h.symm d b, hbd] at hcon
          cases hcon
      | gt =>
        simp only [lexCmp, hbd] at h23
        exact absurd rfl h23

theorem cmpNat_eq_lt {m n : Nat} : cmpNat m n = .lt ↔ m < n := by
  unfold cmpNat
  split <;> rename_i h1
  · simp [h1]
  · split <;> rename_i h2
    · constructor
      · intro hc; cases hc
      · omega
    · constructor
      · intro hc; cases hc
      · omega

theorem cmpNat_eq_gt {m n : Nat} : cmpNat m n = .gt ↔ n < m := by
  unfold cmpNat
  split <;> rename_i h1
  · constructor
    · intro hc; cases hc
    · omega
  · split <;> rename_i h2
    · simp [h2]
    · constructor
      · intro hc; cases hc
      · omega

theorem cmpNat_eq_eq {m n : Nat} : cmpNat m n = .eq ↔ m = n := by
  unfold cmpNat
  split <;> rename_i h1
  · constructor
    · intro hc; cases hc
    · omega
  · split <;> rename_i h2
    · constructor
      · intro hc; cases hc
      · omega
    · constructor
      · intro _; omega
      · intro _; rfl

theorem lawCmp_cmpNat : LawCmp cmpNat := by
  constructor
  · intro a b
    rcases Nat.lt_trichotomy a b with h | h | h
    · rw [cmpNat_eq_lt.mpr h, cmpNat_eq_gt.mpr h]; rfl
    · rw [cmpNat_eq_eq.mpr h, cmpNat_eq_eq.mpr h.symm]; rfl
    · rw [cmpNat_eq_gt.mpr h, cmpNat_eq_lt.mpr h]; rfl
  · intro a b d hab hbd
    intro hc
    rw [cmpNat_eq_gt] at hc
    rcases Nat.lt_trichotomy a b with h | h | h
    · rcases Nat.lt_trichotomy b d with h' | h' | h' <;>
        first
          | exact absurd (cmpNat_eq_gt.mpr (by omega)) hbd
          | omega
    · rcases Nat.lt_trichotomy b d with h' | h' | h' <;>
        first
          | exact absurd (cmpNat_eq_gt.mpr (by omega)) hbd
          | omega
    · exact absurd (cmpNat_eq_gt.mpr h) hab

theorem lawCmp_chunkCmp : LawCmp chunkCmp := by
  constructor
  · intro a b
    cases a <;> cases b <;> simp only [chunkCmp]
    · exact lexCmp_symm lawCmp_cmpNat.symm _ _
    · rfl
    · rfl
    · exact lawCmp_cmpNat.symm _ _
  · intro a b d hab hbd
    cases a with
    | inl ta =>
      cases d with
      | inl td =>
        cases b with
        | inl tb => exact lexCmp_le_trans lawCmp_cmpNat hab hbd
        | inr nb => exact absurd rfl hab
      | inr nd =>
        cases b with
        | inl tb => exact absurd rfl hbd
        | inr nb => exact absurd rfl hab
    | inr na =>
      cases d with
      | inl td => exact fun hc => Ordering.noConfusion hc
      | inr nd =>
        cases b with
        | inl tb => exact absurd rfl hbd
        | inr nb => exact lawCmp_cmpNat.le_trans hab hbd

theorem lawCmp_natCmp : LawCmp natCmp := by
  constructor
  · intro a b
    exact lexCmp_symm lawCmp_chunkCmp.symm _ _
  · intro a b d hab hbd
    exact lexCmp_le_trans lawCmp_chunkCmp hab hbd

instance : IsTrans String NatLe :=
  ⟨fun _ _ _ hab hbd => lawCmp_natCmp.le_trans hab hbd⟩

instance : IsTotal String NatLe := by
  constructor
  intro a b
  by_cases h : natCmp a b = .gt
  · right
    intro hc
    have := lawCmp_natCmp.symm a b
    rw [h, hc] at this
    cases this
  · left; exact h

/-- `natsorted` output is sorted by the natural order. -/
theorem natsorted_sorted (l : List String) : List.Sorted NatLe (natsorted l) :=
  List.sorted_insertionSort NatLe l

/-- `natsorted` output is a permutation of its input. -/
theorem natsorted_perm (l : List String) : List.Perm (natsorted l) l :=
  List.perm_insertionSort NatLe l

/-! ### Basic lemmas about the container and assignment primitives -/

theorem obsGet_obsSet_self : ∀ (o : Obs) (k : String) (c : Column),
    obsGet (obsSet o k c) k = some c
  | [], k, c => by simp [obsGet, obsSet]
  | (k', c') :: rest, k, c => by
    by_cases h : k' = k
    · simp [obsSet, h, obsGet]
    · simp only [obsSet, if_neg h, obsGet, List.find?]
      rw [show (decide (k' = k)) = false by simp [h]]
      exact obsGet_obsSet_self rest k c

theorem countTrue_nil : countTrue [] = 0 := rfl

theorem countTrue_cons (b : Bool) (ms : List Bool) :
    countTrue (b :: ms) = (if b then 1 else 0) + countTrue ms := by
  cases b <;> simp [countTrue, List.filter_cons] <;> omega

/-- Positions the mask leaves out keep the old value. -/
theorem maskedAssign_get_out : ∀ (ms : List Bool) (os ns : List String) (i : Nat),
    ms[i]? = some false → (maskedAssign ms os ns)[i]? = os[i]?
  | [], _, _, i, h => by simp at h
  | true :: ms, [], ns, i, _ => by simp [maskedAssign]
  | false :: ms, [], ns, i, _ => by simp [maskedAssign]
  | true :: ms, o :: os, ns, 0, h => by simp at h
  | true :: ms, o :: os, ns, i + 1, h => by
    simp only [List.getElem?_cons_succ] at h
    simp only [maskedAssign, List.getElem?_cons_succ]
    exact maskedAssign_get_out ms os ns.tail i h
  | false :: ms, o :: os, ns, 0, _ => by
    simp [maskedAssign]
  | false :: ms, o :: os, ns, i + 1, h => by
    simp only [List.getElem?_cons_succ] at h
    simp only [maskedAssign, List.getElem?_cons_succ]
    exact maskedAssign_get_out ms os ns i h

/-- Positions the mask selects take the replacement values in order. -/
theorem maskedAssign_get_in : ∀ (ms : List Bool) (os ns : List String) (i : Nat),
    ms[i]? = some true → i < os.length → countTrue (ms.take i) < ns.length →
    (maskedAssign ms os ns)[i]? = ns[countTrue (ms.take i)]?
  | [], _, _, i, h, _, _ => by simp at h
  | true :: ms, [], ns, i, _, hi, _ => by simp at hi
  | false :: ms, [], ns, i, _, hi, _ => by simp at hi
  | true :: ms, o :: os, ns, 0, _, _, hn => by
    simp only [List.take_zero, countTrue_nil] at hn ⊢
    simp only [maskedAssign, List.getElem?_cons_zero]
    cases ns with
    | nil => simp at hn
    | cons n ns => simp
  | true :: ms, o :: os, ns, i + 1, h, hi, hn => by
    simp only [List.getElem?_cons_succ] at h
    simp only [List.length_cons, Nat.add_lt_add_iff_right] at hi
    simp only [List.take_succ_cons, countTrue_cons, if_pos] at hn
    simp only [maskedAssign, List.getElem?_cons_succ, List.take_succ_cons,
      countTrue_cons, if_pos]
    have htl : countTrue (ms.take i) < ns.tail.length := by
      cases ns with
      | nil => simp at hn
      | cons n ns => simp only [List.tail_cons, List.length_cons] at hn ⊢; omega
    rw [maskedAssign_get_in ms os ns.tail i h hi htl]
    cases ns with
    | nil => simp at hn
    | cons n ns =>
      rw [Nat.add_comm 1 (countTrue (ms.take i))]
      simp [List.getElem?_cons_succ]
  | false :: ms, o :: os, ns, 0, h, _, _ => by simp at h
  | false :: ms, o :: os, ns, i + 1, h, hi, hn => by
    simp only [List.getElem?_cons_succ] at h
    simp only [List.length_cons, Nat.add_lt_add_iff_right] at hi
    simp only [List.take_succ_cons, countTrue_cons, if_neg] at hn
    simp only [maskedAssign, List.getElem?_cons_succ, List.take_succ_cons,
      countTrue_cons, if_neg]
    have hn' : countTrue (ms.take i) < ns.length := by omega
    rw [maskedAssign_get_in ms os ns i h hi hn']
    norm_num

/-- A selected position contributes strictly to the count of the whole mask. -/
theorem countTrue_take_lt : ∀ (ms : List Bool) (i : Nat),
    ms[i]? = some true → countTrue (ms.take i) < countTrue ms
  | [], i, h => by simp at h
  | b :: ms, 0, h => by
    simp only [List.getElem?_cons_zero, Option.some.injEq] at h
    subst h
    simp only [List.take_zero, countTrue_nil, countTrue_cons, if_pos]
    omega
  | b :: ms, i + 1, h => by
    simp only [List.getElem?_cons_succ] at h
    simp only [List.take_succ_cons, countTrue_cons]
    have := countTrue_take_lt ms i h
    omega

/-! ### The decimal rendering is injective -/

theorem digitChar_undigit {d : Nat} (h : d < 10) :
    (Nat.digitChar d).toNat - 48 = d := by
  interval_cases d <;> rfl

theorem map_digitChar_undigit (l : List Nat) (h : ∀ d ∈ l, d < 10) :
    (l.map Nat.digitChar).map (fun c => c.toNat - 48) = l := by
  induction l with
  | nil => rfl
  | cons a l ih =>
    simp only [List.map_cons, List.cons.injEq]
    constructor
    · exact digitChar_undigit (h a (by simp))
    · exact ih (fun d hd => h d (by simp [hd]))

/-- With enough fuel, `natStrAux` produces exactly the reversed
`Nat.digits` rendered as characters. -/
theorem natStrAux_eq_digits : ∀ (fuel n : Nat), 0 < n → n ≤ fuel →
    natStrAux fuel n = (Nat.digits 10 n).reverse.map Nat.digitChar
  | 0, n, hn, hf => by omega
  | fuel + 1, 0, hn, _ => by omega
  | fuel + 1, n + 1, _, hf => by
    show natStrAux fuel ((n + 1) / 10) ++ [Nat.digitChar ((n + 1) % 10)] = _
    rw [Nat.digits_def' (by norm_num : (1 : ℕ) < 10) (Nat.succ_pos n)]
    simp only [List.reverse_cons, List.map_append, List.map_cons, List.map_nil]
    by_cases hq : (n + 1) / 10 = 0
    · rw [hq]
      cases fuel with
      | zero => simp [natStrAux]
      | succ f => simp [natStrAux]
    · rw [natStrAux_eq_digits fuel ((n + 1) / 10) (Nat.pos_of_ne_zero hq) (by omega)]

theorem natStr_eq_digits (n : Nat) :
    natStr n =
      if n = 0 then "0"
      else String.mk ((Nat.digits 10 n).reverse.map Nat.digitChar) := by
  unfold natStr
  by_cases hn : n = 0
  · rw [if_pos hn, if_pos hn]
  · rw [if_neg hn, if_neg hn,
      natStrAux_eq_digits n n (Nat.pos_of_ne_zero hn) le_rfl]

theorem natStr_injective : Function.Injective natStr := by
  intro m n h
  rw [natStr_eq_digits, natStr_eq_digits] at h
  have hdig : ∀ j : Nat, ∀ d ∈ Nat.digits 10 j, d < 10 := by
    intro j d hd
    exact Nat.digits_lt_base (by norm_num) hd
  by_cases hm : m = 0 <;> by_cases hn : n = 0
  · rw [hm, hn]
  · exfalso
    rw [if_pos hm, if_neg hn] at h
    have hdata := congrArg String.data h
    have h0 : (Nat.digits 10 n).reverse.map Nat.digitChar = ['0'] := by
      simpa using hdata.symm
    have h1 : (Nat.digits 10 n).reverse = [0] := by
      have := congrArg (List.map (fun c : Char => c.toNat - 48)) h0
      rw [map_digitChar_undigit _ (by
        intro d hd
        exact hdig n d (List.mem_reverse.mp hd))] at this
      simpa using this
    have h2 : Nat.digits 10 n = [0] := by
      have := congrArg List.reverse h1
      simpa using this
    have := Nat.ofDigits_digits 10 n
    rw [h2] at this
    simp [Nat.ofDigits] at this
    exact hn this.symm
  · exfalso
    rw [if_neg hm, if_pos hn] at h
    have hdata := congrArg String.data h
    have h0 : (Nat.digits 10 m).reverse.map Nat.digitChar = ['0'] := by
      simpa using hdata
    have h1 : (Nat.digits 10 m).reverse = [0] := by
      have := congrArg (List.map (fun c : Char => c.toNat - 48)) h0
      rw [map_digitChar_undigit _ (by
        intro d hd
        exact hdig m d (List.mem_reverse.mp hd))] at this
      simpa using this
    have h2 : Nat.digits 10 m = [0] := by
      have := congrArg List.reverse h1
      simpa using this
    have := Nat.ofDigits_digits 10 m
    rw [h2] at this
    simp [Nat.ofDigits] at this
    exact hm this.symm
  · rw [if_neg hm, if_neg hn] at h
    have hdata := congrArg String.data h
    simp only [String.data] at hdata
    have hmap : (Nat.digits 10 m).reverse.map Nat.digitChar =
        (Nat.digits 10 n).reverse.map Nat.digitChar := hdata
    have hrev : (Nat.digits 10 m).reverse = (Nat.digits 10 n).reverse := by
      have := congrArg (List.map (fun c : Char => c.toNat - 48)) hmap
      rw [map_digitChar_undigit _ (by
            intro d hd
            exact hdig m d (List.mem_reverse.mp hd)),
          map_digitChar_undigit _ (by
            intro d hd
            exact hdig n d (List.mem_reverse.mp hd))] at this
      exact this
    have hdigits : Nat.digits 10 m = Nat.digits 10 n := by
      have := congrArg List.reverse hrev
      simpa using this
    exact Nat.digits.injective 10 hdigits

/-! ### Distinct-value lists -/

theorem uniquedAux_fuel {α : Type} [DecidableEq α] :
    ∀ (f1 f2 : Nat) (l : List α), l.length ≤ f1 → l.length ≤ f2 →
      uniquedAux f1 l = uniquedAux f2 l
  | 0, 0, l, _, _ => rfl
  | 0, f2 + 1, l, h1, _ => by
    have hl : l = [] := List.length_eq_zero.mp (Nat.le_zero.mp h1)
    subst hl
    rfl
  | f1 + 1, 0, l, _, h2 => by
    have hl : l = [] := List.length_eq_zero.mp (Nat.le_zero.mp h2)
    subst hl
    rfl
  | f1 + 1, f2 + 1, [], _, _ => rfl
  | f1 + 1, f2 + 1, a :: l, h1, h2 => by
    simp only [uniquedAux]
    rw [uniquedAux_fuel f1 f2 (l.filter (fun b => b ≠ a))
      (le_trans (List.length_filter_le _ _)
        (Nat.le_of_succ_le_succ (by simpa using h1)))
      (le_trans (List.length_filter_le _ _)
        (Nat.le_of_succ_le_succ (by simpa using h2)))]

theorem uniqued_cons {α : Type} [DecidableEq α] (a : α) (l : List α) :
    uniqued (a :: l) = a :: uniqued (l.filter (fun b => b ≠ a)) := by
  show uniquedAux (l.length + 1) (a :: l) = _
  simp only [uniquedAux]
  rw [uniquedAux_fuel l.length (l.filter (fun b => b ≠ a)).length
    (l.filter (fun b => b ≠ a)) (List.length_filter_le _ _) le_rfl]
  rfl

theorem uniqued_map_natStr : ∀ l : List Nat,
    uniqued (l.map natStr) = (uniqued l).map natStr
  | [] => rfl
  | a :: l => by
    rw [List.map_cons, uniqued_cons, uniqued_cons, List.map_cons]
    have hfilter : (l.map natStr).filter (fun b => b ≠ natStr a) =
        (l.filter (fun b => b ≠ a)).map natStr := by
      rw [List.filter_map]
      congr 1
      apply List.filter_congr
      intro x _
      simp only [Function.comp_apply, ne_eq]
      exact decide_eq_decide.mpr (by
        constructor
        · intro hne hc
          exact hne (congrArg natStr hc)
        · intro hne hc
          exact hne (natStr_injective hc))
    rw [hfilter, uniqued_map_natStr (l.filter (fun b => b ≠ a))]
termination_by l => l.length
decreasing_by
  simp only [List.length_cons]
  exact Nat.lt_succ_of_le (List.length_filter_le _ _)

/-! ### Stage characterizations -/

theorem resolveAdjacency_error_iff (a : LArgs) (st : AnnData) :
    resolveAdjacency a st = .error .neighborsValueError ↔
      a.adjacency = none ∧ st.unsNeighbors = none := by
  unfold resolveAdjacency
  cases ha : a.adjacency with
  | some m => simp
  | none =>
    cases hu : st.unsNeighbors with
    | some m => simp
    | none => simp

theorem resolveAdjacency_error_shape (a : LArgs) (st : AnnData) (e : Err)
    (h : resolveAdjacency a st = .error e) : e = .neighborsValueError := by
  unfold resolveAdjacency at h
  cases ha : a.adjacency with
  | some m => rw [ha] at h; cases h
  | none =>
    rw [ha] at h
    cases hu : st.unsNeighbors with
    | some m => rw [hu] at h; cases h
    | none => rw [hu] at h; cases h; rfl

theorem resolveAdjacency_ok_of (a : LArgs) (st : AnnData)
    (h : ¬(a.adjacency = none ∧ st.unsNeighbors = none)) :
    ∃ adj, resolveAdjacency a st = .ok adj := by
  unfold resolveAdjacency
  cases ha : a.adjacency with
  | some m => exact ⟨m, rfl⟩
  | none =>
    cases hu : st.unsNeighbors with
    | some m => exact ⟨m, rfl⟩
    | none => exact absurd ⟨ha, hu⟩ h

theorem checkRestrict_error_shape (a : LArgs) (st : AnnData) (e : Err)
    (h : checkRestrict a st = .error e) :
    e = .indexError ∨ e = .nonStringValueError ∨
      (∃ c k, e = .badCategoryValueError c k) ∨ ∃ k, e = .keyError k := by
  unfold checkRestrict at h
  cases hr : a.restrict_to with
  | none => rw [hr] at h; cases h
  | some p =>
    obtain ⟨k, cats⟩ := p
    rw [hr] at h
    cases cats with
    | nil => cases h; exact Or.inl rfl
    | cons c0 rest =>
      simp only at h
      by_cases hs : c0.isStr
      · rw [if_neg (by simp [hs])] at h
        cases hc : obsGet st.obs k with
        | none =>
          rw [hc] at h
          simp only at h
          cases h
          exact Or.inr (Or.inr (Or.inr ⟨k, rfl⟩))
        | some col =>
          rw [hc] at h
          simp only at h
          cases hf : firstBadCategory (c0 :: rest) col.categories with
          | none => rw [hf] at h; simp only at h; cases h
          | some c =>
            rw [hf] at h
            simp only at h
            cases h
            exact Or.inr (Or.inr (Or.inl ⟨c, k, rfl⟩))
      · rw [if_pos (by simp [hs])] at h
        cases h
        exact Or.inr (Or.inl rfl)

theorem checkRestrict_ok_some_shape (a : LArgs) (st : AnnData) (ri : RestrictInfo)
    (h : checkRestrict a st = .ok (some ri)) :
    ∃ k cats col, a.restrict_to = some (k, cats) ∧ obsGet st.obs k = some col ∧
      firstBadCategory cats col.categories = none ∧
      ri = ⟨k, cats, col.values.map (fun v => cats.contains (.str v))⟩ := by
  unfold checkRestrict at h
  cases hr : a.restrict_to with
  | none => rw [hr] at h; cases h
  | some p =>
    obtain ⟨k, cats⟩ := p
    rw [hr] at h
    cases cats with
    | nil => cases h
    | cons c0 rest =>
      simp only at h
      by_cases hs : c0.isStr
      · rw [if_neg (by simp [hs])] at h
        cases hc : obsGet st.obs k with
        | none => rw [hc] at h; simp only at h; cases h
        | some col =>
          rw [hc] at h
          simp only at h
          cases hf : firstBadCategory (c0 :: rest) col.categories with
          | none =>
            rw [hf] at h
            simp only at h
            cases h
            exact ⟨k, c0 :: rest, col, rfl, hc, hf, rfl⟩
          | some c => rw [hf] at h; simp only at h; cases h
      · rw [if_pos (by simp [hs])] at h
        cases h

theorem computeGroups_error_shape (a : LArgs) (B : Backend) (adj : Adj) (e : Err)
    (h : computeGroups a B adj = .error e) :
    e = .indexError ∨ e = .flavorValueError := by
  unfold computeGroups at h
  by_cases h1 : a.flavor = "vtraag" ∨ a.flavor = "igraph"
  · rw [if_pos h1] at h
    by_cases h2 : a.flavor = "vtraag"
    · rw [if_pos h2] at h; cases h
    · rw [if_neg h2] at h; cases h
  · rw [if_neg h1] at h
    by_cases h2 : a.flavor = "taynaud"
    · rw [if_pos h2] at h
      cases hd : densify (B.taynaud adj) with
      | none => rw [hd] at h; cases h; exact Or.inl rfl
      | some gs => rw [hd] at h; cases h
    · rw [if_neg h2] at h
      cases h
      exact Or.inr rfl

theorem writeOutput_none_eq (a : LArgs) (st : AnnData) (groups : List Nat) :
    writeOutput a st none groups = .ok
      { st with obs := obsSet st.obs (outKey a) (noRestrictCol groups) } := rfl

theorem writeOutput_error_shape (a : LArgs) (st : AnnData) (r : Option RestrictInfo)
    (groups : List Nat) (e : Err) (h : writeOutput a st r groups = .error e) :
    (∃ k, e = .keyError k) ∨ e = .assignLengthValueError := by
  unfold writeOutput at h
  cases r with
  | none => cases h
  | some ri =>
    simp only at h
    cases hc : obsGet st.obs ri.rkey with
    | none =>
      rw [hc] at h
      simp only at h
      cases h
      exact Or.inl ⟨ri.rkey, rfl⟩
    | some col =>
      rw [hc] at h
      simp only at h
      by_cases hl : (newLabels ri.cats groups).length = countTrue ri.mask
      · rw [if_pos hl] at h; cases h
      · rw [if_neg hl] at h; cases h; exact Or.inr rfl

theorem writeOutput_some_shape (a : LArgs) (st : AnnData) (ri : RestrictInfo)
    (groups : List Nat) (st1 : AnnData)
    (h : writeOutput a st (some ri) groups = .ok st1) :
    ∃ col, obsGet st.obs ri.rkey = some col ∧
      groups.length = countTrue ri.mask ∧
      st1 = { st with obs := obsSet st.obs (outKey a) (restrictCol ri col groups) } := by
  unfold writeOutput at h
  simp only at h
  cases hc : obsGet st.obs ri.rkey with
  | none => rw [hc] at h; simp only at h; cases h
  | some col =>
    rw [hc] at h
    simp only at h
    by_cases hl : (newLabels ri.cats groups).length = countTrue ri.mask
    · rw [if_pos hl] at h
      cases h
      refine ⟨col, rfl, ?_, rfl⟩
      rw [newLabels, List.length_map] at hl
      exact hl
    · rw [if_neg hl] at h; cases h

/-! ### Decomposition of the whole call -/

theorem louvain_ok_shape (a : LArgs) (B : Backend) (st : AnnData)
    (hok : (louvain a B st).error = none) :
    ∃ adj r go st1,
      resolveAdjacency a st = .ok adj ∧
      checkRestrict a st = .ok r ∧
      computeGroups a B (effAdj r adj) = .ok go ∧
      writeOutput a st r go.groups = .ok st1 ∧
      louvain a B st =
        ⟨{ st1 with unsLouvainParams := some ⟨a.resolution, a.random_state⟩ }, none, go.warned,
          if a.copy then
            some { st1 with unsLouvainParams := some ⟨a.resolution, a.random_state⟩ }
          else none⟩ := by
  unfold louvain at hok ⊢
  by_cases h0 : a.flavor ≠ "vtraag" ∧ a.partition_type.isSome
  · rw [if_pos h0] at hok
    exact Option.noConfusion hok
  · rw [if_neg h0] at hok ⊢
    cases h1 : resolveAdjacency a st with
    | error e1 =>
      rw [h1] at hok
      exact Option.noConfusion hok
    | ok adj =>
      rw [h1] at hok
      simp only at hok ⊢
      cases h2 : checkRestrict a st with
      | error e2 =>
        rw [h2] at hok
        exact Option.noConfusion hok
      | ok r =>
        rw [h2] at hok
        simp only at hok ⊢
        cases h3 : computeGroups a B (effAdj r adj) with
        | error e3 =>
          rw [h3] at hok
          exact Option.noConfusion hok
        | ok go =>
          rw [h3] at hok
          simp only at hok ⊢
          cases h4 : writeOutput a st r go.groups with
          | error e4 =>
            rw [h4] at hok
            exact Option.noConfusion hok
          | ok st1 =>
            simp only at hok ⊢
            exact ⟨adj, r, go, st1, rfl, rfl, h3, h4, rfl⟩

theorem louvain_error_state (a : LArgs) (B : Backend) (st : AnnData) (e : Err)
    (h : (louvain a B st).error = some e) : (louvain a B st).adata = st := by
  unfold louvain at h ⊢
  by_cases h0 : a.flavor ≠ "vtraag" ∧ a.partition_type.isSome
  · rw [if_pos h0]
  · rw [if_neg h0] at h ⊢
    cases h1 : resolveAdjacency a st with
    | error e1 => simp only
    | ok adj =>
      rw [h1] at h
      simp only at h ⊢
      cases h2 : checkRestrict a st with
      | error e2 => simp only
      | ok r =>
        rw [h2] at h
        simp only at h ⊢
        cases h3 : computeGroups a B (effAdj r adj) with
        | error e3 => simp only
        | ok go =>
          rw [h3] at h
          simp only at h ⊢
          cases h4 : writeOutput a st r go.groups with
          | error e4 => simp only
          | ok st1 =>
            rw [h4] at h
            simp only at h
            exact Option.noConfusion h

/-- A failing restriction check surfaces exactly its error, provided the
checks that precede it pass. -/
theorem louvain_error_of_checkRestrict (a : LArgs) (B : Backend) (st : AnnData) (e : Err)
    (hpt : ¬(a.flavor ≠ "vtraag" ∧ a.partition_type.isSome))
    (hadj : ¬(a.adjacency = none ∧ st.unsNeighbors = none))
    (hchk : checkRestrict a st = .error e) :
    (louvain a B st).error = some e := by
  obtain ⟨adj, hres⟩ := resolveAdjacency_ok_of a st hadj
  unfold louvain
  rw [if_neg hpt, hres]
  simp only
  rw [hchk]

/-- Under a passing partition-type check, every raised error originates in
one of the four later stages. -/
theorem louvain_error_source (a : LArgs) (B : Backend) (st : AnnData) (e : Err)
    (hpt : ¬(a.flavor ≠ "vtraag" ∧ a.partition_type.isSome))
    (h : (louvain a B st).error = some e) :
    resolveAdjacency a st = .error e ∨
    checkRestrict a st = .error e ∨
    (∃ adj r, resolveAdjacency a st = .ok adj ∧ checkRestrict a st = .ok r ∧
      computeGroups a B (effAdj r adj) = .error e) ∨
    (∃ adj r go, resolveAdjacency a st = .ok adj ∧ checkRestrict a st = .ok r ∧
      computeGroups a B (effAdj r adj) = .ok go ∧
      writeOutput a st r go.groups = .error e) := by
  unfold louvain at h
  rw [if_neg hpt] at h
  cases h1 : resolveAdjacency a st with
  | error e1 =>
    rw [h1] at h
    simp only at h
    cases h
    exact Or.inl rfl
  | ok adj =>
    rw [h1] at h
    simp only at h
    cases h2 : checkRestrict a st with
    | error e2 =>
      rw [h2] at h
      simp only at h
      cases h
      exact Or.inr (Or.inl rfl)
    | ok r =>
      rw [h2] at h
      simp only at h
      cases h3 : computeGroups a B (effAdj r adj) with
      | error e3 =>
        rw [h3] at h
        simp only at h
        cases h
        exact Or.inr (Or.inr (Or.inl ⟨adj, r, rfl, rfl, h3⟩))
      | ok go =>
        rw [h3] at h
        simp only at h
        cases h4 : writeOutput a st r go.groups with
        | error e4 =>
          rw [h4] at h
          simp only at h
          cases h
          exact Or.inr (Or.inr (Or.inr ⟨adj, r, go, rfl, rfl, h3, h4⟩))
        | ok st1 =>
          rw [h4] at h
          simp only at h
          exact Option.noConfusion h

/-- A successful restriction check on an active restriction yields
restriction data. -/
theorem checkRestrict_ok_of_restrict (a : LArgs) (st : AnnData) (k : String)
    (cats : List PyVal) (r : Option RestrictInfo)
    (hres : a.restrict_to = some (k, cats)) (h : checkRestrict a st = .ok r) :
    ∃ ri, r = some ri := by
  unfold checkRestrict at h
  rw [hres] at h
  cases cats with
  | nil => cases h
  | cons c0 rest =>
    simp only at h
    by_cases hs : c0.isStr
    · rw [if_neg (by simp [hs])] at h
      cases hc : obsGet st.obs k with
      | none => rw [hc] at h; simp only at h; cases h
      | some col =>
        rw [hc] at h
        simp only at h
        cases hf : firstBadCategory (c0 :: rest) col.categories with
        | none =>
          rw [hf] at h
          simp only at h
          cases h
          exact ⟨_, rfl⟩
        | some c => rw [hf] at h; simp only at h; cases h
    · rw [if_pos (by simp [hs])] at h
      cases h

/-! ### The claims -/

/-- **C5**: supplying `partition_type` together with any flavor other than
`'vtraag'` (in particular `'igraph'`) raises the `ValueError` of line 90
before doing any other work: the container is untouched, no warning is
surfaced and nothing is returned. -/
theorem claim_C5 (a : LArgs) (B : Backend) (st : AnnData) (pt : PartType)
    (hpt : a.partition_type = some pt) (hfl : a.flavor ≠ "vtraag") :
    louvain a B st = ⟨st, some .partitionValueError, false, none⟩ := by
  unfold louvain
  rw [if_pos ⟨hfl, by rw [hpt]; rfl⟩]

theorem claim_C5_witness :
    louvain
      { flavor := "igraph", partition_type := some .RBConfigurationVertexPartition }
      exB exSt = ⟨exSt, some .partitionValueError, false, none⟩ :=
  claim_C5 _ exB exSt .RBConfigurationVertexPartition rfl (by decide)

/-- **C9**: a call that raises any of the validation errors leaves the
caller's container exactly as it was: no cluster-label column is written
and no run-parameters record is stored. -/
theorem claim_C9 (a : LArgs) (B : Backend) (st : AnnData) (e : Err)
    (h : (louvain a B st).error = some e) : (louvain a B st).adata = st :=
  louvain_error_state a B st e h

theorem claim_C9_witness :
    (louvain { flavor := "bogus" } exB exSt).adata = exSt :=
  claim_C9 { flavor := "bogus" } exB exSt .flavorValueError (by decide)

/-- **C10**: the restriction validation inspects `restrict_categories[0]`
before anything else about the categories, so `restrict_to = (key, [])`
fails with an `IndexError` — not one of the documented `ValueError`s —
whenever the two checks that precede it pass. -/
theorem claim_C10 (a : LArgs) (B : Backend) (st : AnnData) (k : String)
    (hres : a.restrict_to = some (k, []))
    (hpt : ¬(a.flavor ≠ "vtraag" ∧ a.partition_type.isSome))
    (hadj : ¬(a.adjacency = none ∧ st.unsNeighbors = none)) :
    (louvain a B st).error = some .indexError ∧
      Err.isValueError .indexError = false := by
  refine ⟨?_, rfl⟩
  apply louvain_error_of_checkRestrict a B st _ hpt hadj
  unfold checkRestrict
  rw [hres]

theorem claim_C10_witness :
    (louvain { restrict_to := some ("cat", []) } exB exSt).error =
        some .indexError ∧
      Err.isValueError .indexError = false :=
  claim_C10 { restrict_to := some ("cat", []) } exB exSt "cat" rfl
    (by decide) (by decide)

/-- **C3**: with an active restriction over an existing column, a category
list containing a non-string element or an element that is not one of the
column's categories makes the call raise a `ValueError` (provided the
checks that precede the restriction validation pass). -/
theorem claim_C3 (a : LArgs) (B : Backend) (st : AnnData) (k : String)
    (cats : List PyVal) (col : Column)
    (hres : a.restrict_to = some (k, cats))
    (hpt : ¬(a.flavor ≠ "vtraag" ∧ a.partition_type.isSome))
    (hadj : ¬(a.adjacency = none ∧ st.unsNeighbors = none))
    (hcol : obsGet st.obs k = some col)
    (hbad : ∃ c ∈ cats, isBadCat col.categories c = true) :
    ∃ e, (louvain a B st).error = some e ∧ e.isValueError = true := by
  cases cats with
  | nil =>
    obtain ⟨c, hc, _⟩ := hbad
    cases hc
  | cons c0 rest =>
    by_cases hs : c0.isStr
    · have hfind : (firstBadCategory (c0 :: rest) col.categories).isSome :=
        List.find?_isSome.mpr hbad
      obtain ⟨c, hfc⟩ := Option.isSome_iff_exists.mp hfind
      refine ⟨.badCategoryValueError c k, ?_, rfl⟩
      apply louvain_error_of_checkRestrict a B st _ hpt hadj
      unfold checkRestrict
      rw [hres]
      simp only
      rw [if_neg (by simp [hs]), hcol]
      simp only
      rw [hfc]
    · refine ⟨.nonStringValueError, ?_, rfl⟩
      apply louvain_error_of_checkRestrict a B st _ hpt hadj
      unfold checkRestrict
      rw [hres]
      simp only
      rw [if_pos (by simp [hs])]

theorem claim_C3_witness :
    ∃ e, (louvain { restrict_to := some ("cat", [.str "B"]) } exB exSt).error =
        some e ∧ e.isValueError = true :=
  claim_C3 { restrict_to := some ("cat", [.str "B"]) } exB exSt "cat"
    [.str "B"] ⟨["A", "C"], ["A", "C"]⟩ rfl (by decide) (by decide) (by decide)
    ⟨.str "B", by decide, by decide⟩

/-- **C4**: with the partition-type check passing, the missing-adjacency
`ValueError` of line 94 is raised exactly when the explicit adjacency is
`None` and no precomputed neighbors entry exists; and when the explicit
adjacency is `None` but the entry exists, the call behaves exactly as if
the precomputed matrix had been passed explicitly. -/
theorem claim_C4 (a : LArgs) (B : Backend) (st : AnnData)
    (hpt : ¬(a.flavor ≠ "vtraag" ∧ a.partition_type.isSome)) :
    ((louvain a B st).error = some .neighborsValueError ↔
      (a.adjacency = none ∧ st.unsNeighbors = none)) ∧
    (∀ A, a.adjacency = none → st.unsNeighbors = some A →
      louvain a B st = louvain { a with adjacency := some A } B st) := by
  constructor
  · constructor
    · intro herr
      rcases louvain_error_source a B st _ hpt herr with h | h | ⟨_, _, _, _, h⟩ |
        ⟨_, _, _, _, _, _, h⟩
      · exact (resolveAdjacency_error_iff a st).mp h
      · rcases checkRestrict_error_shape a st _ h with h' | h' | ⟨c, k, h'⟩ | ⟨k, h'⟩ <;>
          cases h'
      · rcases computeGroups_error_shape a B _ _ h with h' | h' <;> cases h'
      · rcases writeOutput_error_shape a st _ _ _ h with ⟨k, h'⟩ | h' <;> cases h'
    · intro hboth
      unfold louvain
      rw [if_neg hpt, (resolveAdjacency_error_iff a st).mpr hboth]
  · intro A hadj huns
    have h1 : resolveAdjacency a st = .ok A := by
      unfold resolveAdjacency
      rw [hadj, huns]
    have h2 : resolveAdjacency { a with adjacency := some A } st = .ok A := rfl
    unfold louvain
    rw [if_neg hpt, if_neg hpt, h1, h2]
    exact rfl

theorem claim_C4_witness :
    (((louvain { flavor := "vtraag" } exB exSt).error = some .neighborsValueError ↔
      (({ flavor := "vtraag" } : LArgs).adjacency = none ∧ exSt.unsNeighbors = none)) ∧
    (∀ A, ({ flavor := "vtraag" } : LArgs).adjacency = none →
      exSt.unsNeighbors = some A →
      louvain { flavor := "vtraag" } exB exSt =
        louvain { ({ flavor := "vtraag" } : LArgs) with adjacency := some A } exB exSt)) ∧
    louvain { flavor := "vtraag" } exB exSt =
      louvain { ({ flavor := "vtraag" } : LArgs) with adjacency := some exAdj } exB exSt :=
  ⟨claim_C4 { flavor := "vtraag" } exB exSt (by decide),
    (claim_C4 { flavor := "vtraag" } exB exSt (by decide)).2 exAdj rfl rfl⟩

/-- **C8**: `flavor='igraph'` with a non-`None` resolution does not raise:
under the same hypotheses that make any igraph call succeed (no
partition-type conflict, a resolvable adjacency, no restriction), the call
completes with no error, surfaces the warning of line 113, and writes the
same cluster-label columns as the identical call without a resolution —
the resolution never reaches the multilevel backend. -/
theorem claim_C8 (a : LArgs) (B : Backend) (st : AnnData) (r0 : Rat)
    (hfl : a.flavor = "igraph") (hr : a.resolution = some r0)
    (hpt : a.partition_type = none) (hres : a.restrict_to = none)
    (hadj : ¬(a.adjacency = none ∧ st.unsNeighbors = none)) :
    (louvain a B st).error = none ∧ (louvain a B st).warned = true ∧
      (louvain a B st).adata.obs =
        (louvain { a with resolution := none } B st).adata.obs := by
  obtain ⟨adj, h1⟩ := resolveAdjacency_ok_of a st hadj
  have h1' : resolveAdjacency { a with resolution := none } st = .ok adj := h1
  have h2 : checkRestrict a st = .ok none := by
    unfold checkRestrict
    rw [hres]
  have h2' : checkRestrict { a with resolution := none } st = .ok none := h2
  have hptc : ¬(a.flavor ≠ "vtraag" ∧ a.partition_type.isSome) := by
    rw [hpt]
    intro hc
    cases hc.2
  have h3 : computeGroups a B adj = .ok ⟨B.igraph adj a.use_weights, true⟩ := by
    unfold computeGroups
    rw [hfl, hr]
    simp
  have h3' : computeGroups { a with resolution := none } B adj =
      .ok ⟨B.igraph adj a.use_weights, false⟩ := by
    have hfl' : ({ a with resolution := none } : LArgs).flavor = "igraph" := hfl
    unfold computeGroups
    rw [hfl']
    simp
  unfold louvain
  rw [if_neg hptc, if_neg hptc, h1, h1', h2, h2']
  simp only
  rw [show effAdj none adj = adj from rfl, h3, h3']
  simp only
  rw [writeOutput_none_eq, writeOutput_none_eq]
  exact ⟨rfl, rfl, rfl⟩

theorem claim_C8_witness :
    (louvain { flavor := "igraph", resolution := some 1 } exB exSt).error = none ∧
    (louvain { flavor := "igraph", resolution := some 1 } exB exSt).warned = true ∧
    (louvain { flavor := "igraph", resolution := some 1 } exB exSt).adata.obs =
      (louvain { ({ flavor := "igraph", resolution := some 1 } : LArgs) with
        resolution := none } exB exSt).adata.obs :=
  claim_C8 { flavor := "igraph", resolution := some 1 } exB exSt 1 rfl rfl rfl rfl
    (by decide)

/-- **C7**: for every successful call, the output column's category list is
sorted by the natural (human-numeric) order — so the label `"2"` precedes
the label `"10"` — and consists of exactly the distinct string-cast cluster
labels of the column. -/
theorem claim_C7 (a : LArgs) (B : Backend) (st : AnnData)
    (hok : (louvain a B st).error = none) :
    ∃ ocol, obsGet (louvain a B st).adata.obs (outKey a) = some ocol ∧
      List.Sorted NatLe ocol.categories ∧
      List.Perm ocol.categories (uniqued ocol.values) := by
  obtain ⟨adj, r, go, st1, h1, h2, h3, h4, heq⟩ := louvain_ok_shape a B st hok
  rw [heq]
  cases r with
  | none =>
    rw [writeOutput_none_eq] at h4
    cases h4
    refine ⟨noRestrictCol go.groups, ?_, ?_, ?_⟩
    · show obsGet (obsSet st.obs (outKey a) (noRestrictCol go.groups)) (outKey a) =
        some (noRestrictCol go.groups)
      exact obsGet_obsSet_self _ _ _
    · exact natsorted_sorted _
    · show List.Perm (natsorted ((npUnique go.groups).map natStr))
        (uniqued (go.groups.map natStr))
      rw [uniqued_map_natStr]
      exact (natsorted_perm _).trans ((List.perm_insertionSort _ _).map natStr)
  | some ri =>
    obtain ⟨col, hcol, hlen, hst1⟩ := writeOutput_some_shape a st ri go.groups st1 h4
    subst hst1
    refine ⟨restrictCol ri col go.groups, ?_, ?_, ?_⟩
    · show obsGet (obsSet st.obs (outKey a) (restrictCol ri col go.groups)) (outKey a) =
        some (restrictCol ri col go.groups)
      exact obsGet_obsSet_self _ _ _
    · exact natsorted_sorted _
    · exact natsorted_perm _

theorem claim_C7_witness :
    (∃ ocol, obsGet (louvain { flavor := "vtraag" } exB7 exSt).adata.obs
        (outKey { flavor := "vtraag" }) = some ocol ∧
      List.Sorted NatLe ocol.categories ∧
      List.Perm ocol.categories (uniqued ocol.values)) ∧
    (obsGet (louvain { flavor := "vtraag" } exB7 exSt).adata.obs "louvain").map
      Column.categories = some ["2", "10"] :=
  ⟨claim_C7 { flavor := "vtraag" } exB7 exSt (by decide), by decide⟩

/-- **C6 (amended)**: for every successful call the number of categories of
the output column equals the number of distinct values of that column; when
no restriction is active this equals the number of distinct membership ids
returned by the backend.  (With a restriction it does not in general: the
distinct labels retained from unrestricted samples also count.) -/
theorem claim_C6_amended (a : LArgs) (B : Backend) (st : AnnData)
    (hok : (louvain a B st).error = none) :
    ∃ ocol, obsGet (louvain a B st).adata.obs (outKey a) = some ocol ∧
      ocol.categories.length = (uniqued ocol.values).length ∧
      (a.restrict_to = none → ∀ adj go, resolveAdjacency a st = .ok adj →
        computeGroups a B adj = .ok go →
        ocol.categories.length = (uniqued go.groups).length) := by
  obtain ⟨adj, r, go, st1, h1, h2, h3, h4, heq⟩ := louvain_ok_shape a B st hok
  rw [heq]
  cases r with
  | none =>
    rw [writeOutput_none_eq] at h4
    cases h4
    have hcat : (natsorted ((npUnique go.groups).map natStr)).length =
        (uniqued go.groups).length := by
      rw [(natsorted_perm _).length_eq, List.length_map]
      unfold npUnique
      exact List.length_insertionSort _ _
    refine ⟨noRestrictCol go.groups, ?_, ?_, ?_⟩
    · show obsGet (obsSet st.obs (outKey a) (noRestrictCol go.groups)) (outKey a) =
        some (noRestrictCol go.groups)
      exact obsGet_obsSet_self _ _ _
    · show (natsorted ((npUnique go.groups).map natStr)).length =
        (uniqued (go.groups.map natStr)).length
      rw [uniqued_map_natStr, List.length_map]
      exact hcat
    · intro _ adj' go' h1' h3'
      have hadj : adj' = adj := by
        rw [h1'] at h1
        exact Except.ok.inj h1
      subst hadj
      have hgo : go' = go := by
        have h3'' : computeGroups a B adj' = .ok go := h3
        rw [h3''] at h3'
        exact (Except.ok.inj h3').symm
      subst hgo
      exact hcat
  | some ri =>
    obtain ⟨col, hcol, hlen, hst1⟩ := writeOutput_some_shape a st ri go.groups st1 h4
    subst hst1
    refine ⟨restrictCol ri col go.groups, ?_, ?_, ?_⟩
    · show obsGet (obsSet st.obs (outKey a) (restrictCol ri col go.groups)) (outKey a) =
        some (restrictCol ri col go.groups)
      exact obsGet_obsSet_self _ _ _
    · exact (natsorted_perm _).length_eq
    · intro hrn
      exfalso
      have hnone : checkRestrict a st = .ok none := by
        unfold checkRestrict
        rw [hrn]
      rw [hnone] at h2
      exact Option.noConfusion (Except.ok.inj h2)

/-- **C6 (counterexample)**: a successful restricted call on the two-sample
container: the backend partitions the single restricted sample into one
community (one distinct membership id), yet the output column `"cat_R"`
has two categories (`"A,0"` and the retained `"C"`), so the category count
does not equal the distinct-membership count. -/
theorem claim_C6_counterexample :
    (louvain exA6 exB1 exSt).error = none ∧
    resolveAdjacency exA6 exSt = .ok exAdj ∧
    checkRestrict exA6 exSt = .ok (some ⟨"cat", [.str "A"], [true, false]⟩) ∧
    computeGroups exA6 exB1
      (effAdj (some ⟨"cat", [.str "A"], [true, false]⟩) exAdj) = .ok ⟨[0], false⟩ ∧
    (uniqued [0]).length = 1 ∧
    (obsGet (louvain exA6 exB1 exSt).adata.obs "cat_R").map
      (fun c => c.categories.length) = some 2 ∧
    (2 : Nat) ≠ 1 := by decide

theorem claim_C6_amended_witness :
    ∃ ocol, obsGet (louvain exA6 exB1 exSt).adata.obs (outKey exA6) = some ocol ∧
      ocol.categories.length = (uniqued ocol.values).length ∧
      (exA6.restrict_to = none → ∀ adj go, resolveAdjacency exA6 exSt = .ok adj →
        computeGroups exA6 exB1 adj = .ok go →
        ocol.categories.length = (uniqued go.groups).length) :=
  claim_C6_amended exA6 exB1 exSt (by decide)

/-- **C1 (counterexample)**: a successful restricted call writing to the
pre-existing output column `"out"`.  Sample 1 is outside the restricted set
(its `"cat"` value `"C"` is not among the restricting categories), its value
in `adata.obs["out"]` before the call was `"y"`, yet after the call it is
`"C"` — the value of the restriction column, not the prior value of the
output column. -/
theorem claim_C1_counterexample :
    (louvain exA1 exB1 exSt).error = none ∧
    obsGet exSt.obs "out" = some ⟨["x", "y"], ["x", "y"]⟩ ∧
    checkRestrict exA1 exSt = .ok (some ⟨"cat", [.str "A"], [true, false]⟩) ∧
    (obsGet (louvain exA1 exB1 exSt).adata.obs "out").map Column.values =
      some ["A,0", "C"] ∧
    ¬("C" = "y") := by decide

/-- **C1 (amended)**: for every successful restricted call, each sample
outside the restricted set receives in the output column the (string-cast)
value it has in the restriction column `adata.obs[restrict_key]` — not the
prior value of the output column; only restricted samples receive new
values. -/
theorem claim_C1_amended (a : LArgs) (B : Backend) (st : AnnData) (k : String)
    (cats : List PyVal) (col : Column)
    (hres : a.restrict_to = some (k, cats))
    (hcol : obsGet st.obs k = some col)
    (hok : (louvain a B st).error = none) :
    ∃ ocol, obsGet (louvain a B st).adata.obs (outKey a) = some ocol ∧
      ∀ (i : Nat) (v : String), col.values[i]? = some v →
        cats.contains (.str v) = false → ocol.values[i]? = some v := by
  obtain ⟨adj, r, go, st1, h1, h2, h3, h4, heq⟩ := louvain_ok_shape a B st hok
  obtain ⟨ri, hri⟩ := checkRestrict_ok_of_restrict a st k cats r hres h2
  subst hri
  obtain ⟨k', cats', col', hres', hcol', hfb, hrieq⟩ :=
    checkRestrict_ok_some_shape a st ri h2
  rw [hres] at hres'
  obtain ⟨hk, hcats⟩ := Prod.mk.inj (Option.some.inj hres')
  subst hk
  subst hcats
  rw [hcol] at hcol'
  have hcoleq : col' = col := (Option.some.inj hcol').symm
  subst hcoleq
  obtain ⟨col2, hcol2, hlen, hst1⟩ := writeOutput_some_shape a st ri go.groups st1 h4
  subst hst1
  rw [heq]
  refine ⟨restrictCol ri col2 go.groups, ?_, ?_⟩
  · show obsGet (obsSet st.obs (outKey a) (restrictCol ri col2 go.groups)) (outKey a) =
      some (restrictCol ri col2 go.groups)
    exact obsGet_obsSet_self _ _ _
  · intro i v hv hout
    have hrk : ri.rkey = k := by rw [hrieq]
    rw [hrk, hcol] at hcol2
    have hcol2eq : col2 = col' := (Option.some.inj hcol2).symm
    subst hcol2eq
    have hmask : ri.mask[i]? = some false := by
      rw [hrieq]
      show (col2.values.map (fun v => cats.contains (.str v)))[i]? = some false
      rw [List.getElem?_map, hv]
      simp only [Option.map_some', Option.some.injEq]
      exact hout
    show (mergedValues ri col2 go.groups)[i]? = some v
    unfold mergedValues
    rw [maskedAssign_get_out ri.mask col2.values (newLabels ri.cats go.groups) i hmask]
    exact hv

theorem claim_C1_amended_witness :
    ∃ ocol, obsGet (louvain exA1 exB1 exSt).adata.obs (outKey exA1) = some ocol ∧
      ∀ (i : Nat) (v : String),
        (⟨["A", "C"], ["A", "C"]⟩ : Column).values[i]? = some v →
        [PyVal.str "A"].contains (.str v) = false →
        ocol.values[i]? = some v :=
  claim_C1_amended exA1 exB1 exSt "cat" [.str "A"] ⟨["A", "C"], ["A", "C"]⟩
    rfl (by decide) (by decide)

/-- **C2 (counterexample)**: restricting to the categories `["B", "A"]`
(given in that order) on a successful call yields restricted labels
`"B-A,0"` and `"B-A,1"` — the categories joined in the order given, not
sorted — whereas the claim requires the sorted prefix `"A-B"`. -/
theorem claim_C2_counterexample :
    (louvain exA2 exB exSt).error = none ∧
    checkRestrict exA2 exSt =
      .ok (some ⟨"ab", [.str "B", .str "A"], [true, true]⟩) ∧
    (obsGet (louvain exA2 exB exSt).adata.obs "ab_R").map Column.values =
      some ["B-A,0", "B-A,1"] ∧
    ¬("B-A,0" = "A-B,0") := by decide

/-- **C2 (amended)**: for every successful restricted call, each restricted
sample's output label is the restricting categories joined by `'-'` in the
order given (not sorted), then `','`, then the sample's new cluster id —
the membership entry of the backend's vector at the sample's rank among the
restricted samples. -/
theorem claim_C2_amended (a : LArgs) (B : Backend) (st : AnnData) (k : String)
    (cats : List PyVal) (col : Column)
    (hres : a.restrict_to = some (k, cats))
    (hcol : obsGet st.obs k = some col)
    (hok : (louvain a B st).error = none) :
    ∃ ocol adj go,
      obsGet (louvain a B st).adata.obs (outKey a) = some ocol ∧
      resolveAdjacency a st = .ok adj ∧
      checkRestrict a st =
        .ok (some ⟨k, cats, col.values.map (fun v => cats.contains (.str v))⟩) ∧
      computeGroups a B
        (effAdj (some ⟨k, cats, col.values.map (fun v => cats.contains (.str v))⟩) adj) =
        .ok go ∧
      ∀ (i : Nat) (v : String), col.values[i]? = some v →
        cats.contains (.str v) = true →
        ∃ g, go.groups[countTrue ((col.values.map
            (fun v => cats.contains (.str v))).take i)]? = some g ∧
          ocol.values[i]? =
            some ((String.intercalate "-" (cats.map PyVal.toStr) ++ ",") ++ natStr g) := by
  obtain ⟨adj, r, go, st1, h1, h2, h3, h4, heq⟩ := louvain_ok_shape a B st hok
  obtain ⟨ri, hri⟩ := checkRestrict_ok_of_restrict a st k cats r hres h2
  subst hri
  obtain ⟨k', cats', col', hres', hcol', hfb, hrieq⟩ :=
    checkRestrict_ok_some_shape a st ri h2
  rw [hres] at hres'
  obtain ⟨hk, hcats⟩ := Prod.mk.inj (Option.some.inj hres')
  subst hk
  subst hcats
  rw [hcol] at hcol'
  have hcoleq : col' = col := (Option.some.inj hcol').symm
  subst hcoleq
  obtain ⟨col2, hcol2, hlen, hst1⟩ := writeOutput_some_shape a st ri go.groups st1 h4
  subst hst1
  rw [heq]
  subst hrieq
  have hcol2eq : col2 = col' := by
    rw [hcol] at hcol2
    exact (Option.some.inj hcol2).symm
  subst hcol2eq
  refine ⟨restrictCol ⟨k, cats, col2.values.map (fun v => cats.contains (.str v))⟩
      col2 go.groups, adj, go, ?_, h1, h2, h3, ?_⟩
  · show obsGet (obsSet st.obs (outKey a) _) (outKey a) = _
    exact obsGet_obsSet_self _ _ _
  · intro i v hv hin
    set mask := col2.values.map (fun v => cats.contains (.str v)) with hmaskdef
    have hmaski : mask[i]? = some true := by
      rw [hmaskdef, List.getElem?_map, hv]
      simp only [Option.map_some', Option.some.injEq]
      exact hin
    have hilt : i < col2.values.length := by
      have := (List.getElem?_eq_some.mp hv).1
      exact this
    have hrank : countTrue (mask.take i) < countTrue mask :=
      countTrue_take_lt mask i hmaski
    have hlen' : countTrue mask = go.groups.length := hlen.symm
    have hranklt : countTrue (mask.take i) < go.groups.length := by
      rw [← hlen']
      exact hrank
    obtain ⟨g, hg⟩ : ∃ g, go.groups[countTrue (mask.take i)]? = some g := by
      rw [List.getElem?_eq_getElem hranklt]
      exact ⟨_, rfl⟩
    refine ⟨g, hg, ?_⟩
    show (mergedValues ⟨k, cats, mask⟩ col2 go.groups)[i]? = _
    unfold mergedValues
    rw [maskedAssign_get_in mask col2.values
      (newLabels cats go.groups) i hmaski hilt
      (by
        show countTrue (mask.take i) < (go.groups.map _).length
        rw [List.length_map]
        exact hranklt)]
    show (go.groups.map (fun g => catJoin cats ++ natStr g))[countTrue (mask.take i)]? = _
    rw [List.getElem?_map, hg]
    rfl

theorem claim_C2_amended_witness :
    ∃ ocol adj go,
      obsGet (louvain exA2 exB exSt).adata.obs (outKey exA2) = some ocol ∧
      resolveAdjacency exA2 exSt = .ok adj ∧
      checkRestrict exA2 exSt =
        .ok (some ⟨"ab", [.str "B", .str "A"],
          (⟨["A", "B"], ["A", "B"]⟩ : Column).values.map
            (fun v => [PyVal.str "B", PyVal.str "A"].contains (.str v))⟩) ∧
      computeGroups exA2 exB
        (effAdj (some ⟨"ab", [.str "B", .str "A"],
          (⟨["A", "B"], ["A", "B"]⟩ : Column).values.map
            (fun v => [PyVal.str "B", PyVal.str "A"].contains (.str v))⟩) adj) =
        .ok go ∧
      ∀ (i : Nat) (v : String),
        (⟨["A", "B"], ["A", "B"]⟩ : Column).values[i]? = some v →
        [PyVal.str "B", PyVal.str "A"].contains (.str v) = true →
        ∃ g, go.groups[countTrue (((⟨["A", "B"], ["A", "B"]⟩ : Column).values.map
            (fun v => [PyVal.str "B", PyVal.str "A"].contains (.str v))).take i)]? = some g ∧
          ocol.values[i]? =
            some ((String.intercalate "-"
              ([PyVal.str "B", PyVal.str "A"].map PyVal.toStr) ++ ",") ++ natStr g) :=
  claim_C2_amended exA2 exB exSt "ab" [.str "B", .str "A"] ⟨["A", "B"], ["A", "B"]⟩
    rfl (by decide) (by decide)

end Scanpy
